import Mathlib

/-!
Verification development for the grpc-web-cli request-scripting core.

The Go sources are shallowly embedded: Go strings are modelled as `List Char`
(`GoStr`), Go maps that the code iterates over are modelled as association
lists whose order stands for Go's (unspecified) map iteration order, fallible
Go functions return `Except`, and calls into the Go standard library or into
external collaborators (JSON unmarshalling, duration parsing, the operation
registry, the transport, the protobuf codec) are parameters of the embedded
functions.  All recursive functions are written so that they reduce inside
the kernel (structural recursion, with an explicit fuel argument where the
Go loop is not structural); theorems about concrete inputs are then provable
by `rfl` or `decide`.
-/

namespace GrpcCli

/-- GoStr models a Go string as its list of characters. -/
abbrev GoStr := List Char

/-- Convenience conversion from a Lean string literal to a `GoStr`. -/
def gs (s : String) : GoStr := s.toList

/-- Whitespace predicate used by `strings.TrimSpace` (ASCII subset of
`unicode.IsSpace`, which covers every character the parser's inputs use). -/
def goIsSpace (c : Char) : Bool :=
  c == ' ' || c == '\t' || c == '\n' || c == '\x0b' || c == '\x0c' || c == '\r'

/-- Embedding of `strings.TrimSpace` (leading part). -/
def goTrimLeft (s : GoStr) : GoStr := s.dropWhile goIsSpace

/-- Embedding of `strings.TrimSpace`. -/
def goTrimSpace (s : GoStr) : GoStr :=
  ((goTrimLeft s).reverse.dropWhile goIsSpace).reverse

/-- Embedding of `strings.TrimPrefix`. -/
def goStripLead (pre s : GoStr) : GoStr :=
  if pre.isPrefixOf s then s.drop pre.length else s

/-- Split a string at the first occurrence of character `c`.  This models the
Go idiom `idx := strings.Index(s, c); s[:idx], s[idx+1:]` (returning `none`
exactly when `strings.Index` returns `-1`), and also `strings.SplitN(s, c, 2)`. -/
def splitAtChar (c : Char) : GoStr → Option (GoStr × GoStr)
  | [] => none
  | x :: xs =>
    if x = c then some ([], xs)
    else (splitAtChar c xs).map (fun p => (x :: p.1, p.2))

/-- Embedding of `strings.Contains`. -/
def goContains (s sub : GoStr) : Bool :=
  if sub.isPrefixOf s then true
  else
    match s with
    | [] => false
    | _ :: cs => goContains cs sub

/-- Embedding of `strings.Join`. -/
def goJoin (sep : GoStr) : List GoStr → GoStr
  | [] => []
  | [x] => x
  | x :: xs => x ++ sep ++ goJoin sep xs

/-- Embedding of the accumulator loop behind `strings.Fields`. -/
def fieldsAux : GoStr → GoStr → List GoStr
  | [], acc => if acc = [] then [] else [acc.reverse]
  | c :: cs, acc =>
    if goIsSpace c then
      if acc = [] then fieldsAux cs [] else acc.reverse :: fieldsAux cs []
    else fieldsAux cs (c :: acc)

/-- Embedding of `strings.Fields`. -/
def goFields (s : GoStr) : List GoStr := fieldsAux s []

/-- Decimal rendering of a natural number (Go `fmt` `%d` / `%v`). -/
def natToStr (n : Nat) : GoStr := (Nat.repr n).toList

/-- Decimal rendering of an integer (Go `fmt` `%d` / `%v`). -/
def intToStr : Int → GoStr
  | .ofNat n => natToStr n
  | .negSucc n => '-' :: natToStr (n + 1)

/-- Digit-string parsing helper for `strconv.Atoi`. -/
def digitsToNat (s : GoStr) : Option Nat :=
  if s = [] then none
  else s.foldlM (fun acc c => if c.isDigit then some (acc * 10 + (c.toNat - 48)) else none) 0

/-- Embedding of `strconv.Atoi` (optional sign, decimal digits; the Go
64-bit range error is not modelled — the parser only meets small indices). -/
def goAtoi : GoStr → Option Int
  | [] => none
  | '+' :: rest => (digitsToNat rest).map Int.ofNat
  | '-' :: rest => (digitsToNat rest).map (fun n => -(n : Int))
  | s => (digitsToNat s).map Int.ofNat

/-- Update-or-append on an association list; models assignment `m[k] = v`
into a Go map (the list order stands for Go's map iteration order). -/
def mapSet (m : List (GoStr × GoStr)) (k v : GoStr) : List (GoStr × GoStr) :=
  match m with
  | [] => [(k, v)]
  | (k0, v0) :: rest => if k0 = k then (k0, v) :: rest else (k0, v0) :: mapSet rest k v

/-! ## Template substitution (internal/template/template.go) -/

/-- Fuel-indexed loop of `strings.ReplaceAll`: scan left to right, replacing
each non-overlapping occurrence of `pat` and never re-scanning the
replacement text within the same pass.  One unit of fuel is consumed per
character position, so fuel `s.length` always suffices. -/
def replaceGo (pat rep : GoStr) : Nat → GoStr → GoStr
  | _, [] => if pat = [] then rep else []
  | 0, s => s
  | f + 1, c :: cs =>
    if pat = [] then rep ++ c :: replaceGo pat rep f cs
    else if pat.isPrefixOf (c :: cs) then rep ++ replaceGo pat rep f ((c :: cs).drop pat.length)
    else c :: replaceGo pat rep f cs

/-- Embedding of `strings.ReplaceAll s pat rep`. -/
def goReplaceAll (s pat rep : GoStr) : GoStr := replaceGo pat rep s.length s

/-- Placeholder text `\x7b\x7bkey\x7d\x7d` built by `Substitute`. -/
def placeholderOf (k : GoStr) : GoStr := gs "\x7b\x7b" ++ k ++ gs "\x7d\x7d"

/-- Embedding of `template.Substitute`.  The Go function ranges over a
Go string map; the association list carries the same pairs in
Go's (unspecified) iteration order, and values are already-stringified
(`fmt.Sprintf("%v", value)`). -/
def Substitute (input : GoStr) (vars : List (GoStr × GoStr)) : GoStr :=
  if vars = [] then input
  else vars.foldl (fun result kv => goReplaceAll result (placeholderOf kv.1) kv.2) input

/-- Modelled from the spec: the first variable of `vars` whose
placeholder starts the string `s`, with the remainder of `s` after that
placeholder. -/
def findPlaceholder (vars : List (GoStr × GoStr)) (s : GoStr) : Option (GoStr × GoStr) :=
  vars.findSome? (fun kv =>
    if (placeholderOf kv.1).isPrefixOf s then
      some (kv.2, s.drop (placeholderOf kv.1).length)
    else none)

/-- Modelled from the spec: fuel-indexed single left-to-right pass that
replaces every placeholder occurrence once and never re-scans substituted
text (the spec's "not recursive" substitution, all keys simultaneously). -/
def specSubstFuel (vars : List (GoStr × GoStr)) : Nat → GoStr → GoStr
  | 0, s => s
  | _ + 1, [] => []
  | f + 1, c :: cs =>
    match findPlaceholder vars (c :: cs) with
    | some vr => vr.1 ++ specSubstFuel vars f vr.2
    | none => c :: specSubstFuel vars f cs

/-- Modelled from the spec: literal, non-recursive substitution — a single
pass in which a substituted value is never itself re-scanned. -/
def specSubstitute (vars : List (GoStr × GoStr)) (s : GoStr) : GoStr :=
  specSubstFuel vars s.length s

/-! ## JSON values and the path evaluator (internal/client/jsonpath.go) -/

/-!
Parsed JSON value tree, mirroring what `encoding/json.Unmarshal` builds
into an empty Go interface: objects, arrays, strings, numbers, booleans and
null.  Go decodes every number as `float64`; the claims under verification
never exercise fractional values, so numbers are carried as integers.
`JsonElems` and `JsonMembers` are the element and member lists, kept as
mutual inductives so that every function below is plain structural
recursion (and therefore reduces inside the kernel).
-/
mutual

/-- JSON value. -/
inductive Json where
  | obj : JsonMembers → Json
  | arr : JsonElems → Json
  | str : GoStr → Json
  | num : Int → Json
  | bool : Bool → Json
  | null : Json

inductive JsonElems where
  | nil : JsonElems
  | cons : Json → JsonElems → JsonElems

inductive JsonMembers where
  | nil : JsonMembers
  | cons : GoStr → Json → JsonMembers → JsonMembers

end

/-- Go dynamic type name printed by the `%T` verb for each JSON value. -/
def typeName : Json → GoStr
  | .obj _ => gs "map[string]interface \x7b\x7d"
  | .arr _ => gs "[]interface \x7b\x7d"
  | .str _ => gs "string"
  | .num _ => gs "float64"
  | .bool _ => gs "bool"
  | .null => gs "<nil>"

/-- Length of a JSON array (`len(slice)`). -/
def elemsLength : JsonElems → Nat
  | .nil => 0
  | .cons _ rest => elemsLength rest + 1

/-- Indexing into a JSON array with a default (only used in-bounds,
modelling `slice[idx]`). -/
def elemsGetD : JsonElems → Nat → Json
  | .nil, _ => Json.null
  | .cons x _, 0 => x
  | .cons _ rest, n + 1 => elemsGetD rest n

/-- Lookup in a JSON object, modelling `obj[key]` on a Go map (keys from
`json.Unmarshal` are unique). -/
def jsonGet : JsonMembers → GoStr → Option Json
  | .nil, _ => none
  | .cons k v rest, key => if k == key then some v else jsonGet rest key

/-- Strip the optional root selector, as at the top of `evaluatePath`. -/
def stripDollar (p : GoStr) : GoStr :=
  if (gs "$.").isPrefixOf p then p.drop 2
  else if (gs "$").isPrefixOf p then p.drop 1
  else p

/-- Dot-notation part of one `evaluatePath` step: `key` is the text before
the first dot (`parts[0]`), `rest?` the text after it when the dot exists
(`parts[1]`).  If `key` contains a bracket, descend through the key part
and re-queue the bracketed remainder; otherwise descend through the plain
key or return its value when the path ends here. -/
def evalKeyStep (rec : Json → GoStr → Except GoStr Json) (data : Json) (key : GoStr)
    (rest? : Option GoStr) : Except GoStr Json :=
  match splitAtChar '[' key with
  | some (realKey, afterBr) =>
    let remainingPath : GoStr :=
      ('[' :: afterBr) ++ (match rest? with | some r => '.' :: r | none => [])
    match data with
    | .obj kvs =>
      match jsonGet kvs realKey with
      | some v => rec v remainingPath
      | none => .error (gs "key \x27" ++ realKey ++ gs "\x27 not found")
    | _ => .error (gs "expected object for key \x27" ++ realKey ++ gs "\x27 but got " ++ typeName data)
  | none =>
    match data with
    | .obj kvs =>
      match jsonGet kvs key with
      | some v =>
        match rest? with
        | some r => rec v r
        | none => .ok v
      | none => .error (gs "key \x27" ++ key ++ gs "\x27 not found")
    | _ => .error (gs "expected object for key \x27" ++ key ++ gs "\x27 but got " ++ typeName data)

/-- One step of `evaluatePath`, with the recursive call abstracted as `rec`.
The branch structure and error texts mirror the Go function: strip `$`,
return the value on an empty path, handle a leading bracket index
(unclosed-bracket, bad-index, non-array and out-of-bounds errors, in this
order), otherwise split on the first dot and continue with `evalKeyStep`. -/
def evalStep (rec : Json → GoStr → Except GoStr Json) (data : Json) (path : GoStr) :
    Except GoStr Json :=
  match stripDollar path with
  | [] => .ok data
  | c :: tl =>
    if c = '[' then
      match splitAtChar ']' tl with
      | none => .error (gs "unclosed array index in path: " ++ c :: tl)
      | some (idxStr, rest) =>
        match goAtoi idxStr with
        | none => .error (gs "invalid array index \x27" ++ idxStr ++ gs "\x27")
        | some idx =>
          match data with
          | .arr xs =>
            if idx < 0 ∨ (elemsLength xs : Int) ≤ idx then
              .error (gs "array index out of bounds: " ++ intToStr idx)
            else rec (elemsGetD xs idx.toNat) (goStripLead (gs ".") rest)
          | _ => .error (gs "expected array but got " ++ typeName data)
    else
      match splitAtChar '.' (c :: tl) with
      | some kr => evalKeyStep rec data kr.1 (some kr.2)
      | none => evalKeyStep rec data (c :: tl) none

/-- Fuel-indexed recursion for `evaluatePath`; every recursive call strictly
shortens the path, so fuel `path.length + 1` always suffices (the fuel-zero
branch is unreachable from `evaluatePath`). -/
def evalGo : Nat → Json → GoStr → Except GoStr Json
  | 0, _, _ => .error []
  | f + 1, data, path => evalStep (evalGo f) data path

/-- Embedding of `evaluatePath` from internal/client/jsonpath.go. -/
def evaluatePath (data : Json) (path : GoStr) : Except GoStr Json :=
  evalGo (path.length + 1) data path

/-!
Rendering of a JSON value by the `%v` verb (`fmt.Sprintf("%v", x)`),
with its list renderers.  Scalars match Go exactly; for maps Go sorts keys
while this model keeps insertion order — the spec marks container
formatting implementation-defined and no claim depends on it.
-/
mutual

/-- Render one JSON value with the `%v` verb. -/
def goSprintV : Json → GoStr
  | .str s => s
  | .num n => intToStr n
  | .bool b => if b then gs "true" else gs "false"
  | .null => gs "<nil>"
  | .arr xs => gs "[" ++ sprintElems xs ++ gs "]"
  | .obj kvs => gs "map[" ++ sprintMembers kvs ++ gs "]"

def sprintElems : JsonElems → GoStr
  | .nil => []
  | .cons x .nil => goSprintV x
  | .cons x rest => goSprintV x ++ gs " " ++ sprintElems rest

def sprintMembers : JsonMembers → GoStr
  | .nil => []
  | .cons k v .nil => k ++ gs ":" ++ goSprintV v
  | .cons k v rest => k ++ gs ":" ++ goSprintV v ++ gs " " ++ sprintMembers rest

end

/-- Embedding of `client.EvaluateJSONPath`.  The call to
`encoding/json.Unmarshal` is external standard-library code and is passed in
as `pj` (returning the parsed tree or the unmarshal error text). -/
def EvaluateJSONPath (pj : GoStr → Except GoStr Json) (jsonStr path : GoStr) :
    Except GoStr GoStr :=
  match pj jsonStr with
  | .error e => .error (gs "invalid JSON response: " ++ e)
  | .ok data =>
    match evaluatePath data path with
    | .error e => .error e
    | .ok result => .ok (goSprintV result)

/-! ## Assertions (internal/assert/assert.go) -/

/-- Assertion record from internal/file/parser.go (field `Type` is named
`Typ` because `Type` is reserved in Lean). -/
structure Assertion where
  Typ : GoStr
  Key : GoStr
  Operator : GoStr
  Value : GoStr
deriving DecidableEq

/-- Outcome of one assertion, mirroring `assert.Result`. -/
structure Result where
  Pass : Bool
  Message : GoStr
deriving DecidableEq

/-- Embedding of `assert.Check`.  The Go function returns `(Result, error)`;
the second component models the returned Go `error` (`none` = `nil`). -/
def Check (pj : GoStr → Except GoStr Json) (a : Assertion) (jsonOutput : GoStr) :
    Result × Option GoStr :=
  if a.Typ ≠ gs "jsonpath" then
    (⟨true, gs "Warning: skipping unknown assertion type \x27" ++ a.Typ ++ gs "\x27"⟩, none)
  else
    match EvaluateJSONPath pj jsonOutput a.Key with
    | .error e =>
      (⟨false, gs "failed to evaluate jsonpath \x27" ++ a.Key ++ gs "\x27: " ++ e⟩, none)
    | .ok val =>
      if a.Operator = gs "==" ∨ a.Operator = gs "!=" ∨ a.Operator = gs "contains" then
        let pass :=
          if a.Operator = gs "==" then val == a.Value
          else if a.Operator = gs "!=" then val != a.Value
          else goContains val a.Value
        let status := if pass then gs "PASS" else gs "FAIL"
        let base := status ++ gs ": jsonpath \x22" ++ a.Key ++ gs "\x22 " ++ a.Operator ++
          gs " \x22" ++ a.Value ++ gs "\x22"
        let msg := if pass then base else base ++ gs " (actual: \x22" ++ val ++ gs "\x22)"
        (⟨pass, msg⟩, none)
      else
        (⟨false, gs "unknown operator \x27" ++ a.Operator ++ gs "\x27"⟩, none)

/-! ## Request-file parser (internal/file/parser.go) -/

/-- Parsed request record, mirroring `file.RequestFile`.  `Timeout` is in
nanoseconds (Go `time.Duration`); `Headers` and `Captures` are association
lists standing for the Go maps. -/
structure RequestFile where
  Name : GoStr
  Address : GoStr
  Service : GoStr
  Method : GoStr
  Protocol : GoStr
  Timeout : Nat
  Headers : List (GoStr × GoStr)
  Body : GoStr
  Captures : List (GoStr × GoStr)
  Asserts : List Assertion
deriving DecidableEq

/-- Parser mode, mirroring the Go `currentSection` string
(`"" / "Body" / "Captures" / "Asserts"`). -/
inductive Mode where
  | header
  | body
  | captures
  | asserts
deriving DecidableEq

/-- Loop state of `parseContent`: the record under construction, the current
mode and the collected body lines. -/
structure PState where
  req : RequestFile
  mode : Mode
  bodyLines : List GoStr
deriving DecidableEq

/-- Initial `parseContent` state: the defaults set at the top of the Go
function (protocol `grpc-web`, timeout 30s = 30000000000ns, empty maps). -/
def initState : PState :=
  { req := { Name := [], Address := [], Service := [], Method := [],
             Protocol := gs "grpc-web", Timeout := 30000000000,
             Headers := [], Body := [], Captures := [], Asserts := [] },
    mode := .header, bodyLines := [] }

/-- Step 4 of the assertion-line grammar: the expected value.  If the rest
starts with a double quote, take the text up to the next double quote, or
the empty string when there is none (the `val` zero value in Go); otherwise
take the rest verbatim. -/
def parseAssertValue (rest : GoStr) : GoStr :=
  if (gs "\x22").isPrefixOf rest then
    match splitAtChar '\x22' (rest.drop 1) with
    | some p => p.1
    | none => []
  else rest

/-- Steps 1–3 of the assertion-line grammar (the `len(parts) >= 4` gate,
then kind, quoted key and operator), returning them with the remaining text
for the value step; `none` models every `continue` that skips the line. -/
def stepsToValue (trimmed : GoStr) : Option (GoStr × GoStr × GoStr × GoStr) :=
  if 4 ≤ (goFields trimmed).length then
    match splitAtChar ' ' trimmed with
    | none => none
    | some p1 =>
      let rest1 := goTrimSpace p1.2
      if (gs "\x22").isPrefixOf rest1 then
        match splitAtChar '\x22' (rest1.drop 1) with
        | none => none
        | some p2 =>
          let rest2 := goTrimSpace p2.2
          match splitAtChar ' ' rest2 with
          | none => none
          | some p3 => some (p1.1, p2.1, p3.1, goTrimSpace p3.2)
      else none
  else none

/-- Full assertion-line parser used in asserts mode; `none` means the line
is silently skipped. -/
def parseAssertLine (trimmed : GoStr) : Option Assertion :=
  (stepsToValue trimmed).map (fun q => ⟨q.1, q.2.1, q.2.2.1, parseAssertValue q.2.2.2⟩)

/-- Key part of a `key: value` line (text before the first colon, trimmed),
or `none` when the line has no colon. -/
def lineKeyOf (line : GoStr) : Option GoStr :=
  (splitAtChar ':' line).map (fun p => goTrimSpace p.1)

/-- The `key: value` dispatch at the bottom of the `parseContent` loop
(recognized keys `Service`/`Method`/`Protocol`/`Timeout`, all other keys
become headers; a line with no colon is ignored).  `pd` models the external
`time.ParseDuration` (nanoseconds on success, the Go error text on
failure). -/
def processKV (pd : GoStr → Except GoStr Nat) (st1 : PState) (line : GoStr) :
    Except GoStr PState :=
  match splitAtChar ':' line with
  | none => .ok st1
  | some kv =>
    let key := goTrimSpace kv.1
    let value := goTrimSpace kv.2
    if key = gs "Service" then .ok { st1 with req := { st1.req with Service := value } }
    else if key = gs "Method" then .ok { st1 with req := { st1.req with Method := value } }
    else if key = gs "Protocol" then .ok { st1 with req := { st1.req with Protocol := value } }
    else if key = gs "Timeout" then
      match pd value with
      | .error e =>
        .error (gs "invalid timeout duration \x22" ++ value ++ gs "\x22: " ++ e)
      | .ok d => .ok { st1 with req := { st1.req with Timeout := d } }
    else .ok { st1 with req := { st1.req with Headers := mapSet st1.req.Headers key value } }

/-- The body-start / body-accumulation / address-line / `key: value` part
of the `parseContent` loop (reached in header or body mode only). -/
def processHeaderBody (pd : GoStr → Except GoStr Nat) (st : PState) (line trimmed : GoStr) :
    Except GoStr PState :=
  let st1 := if st.mode = Mode.header ∧ (gs "\x7b").isPrefixOf trimmed then
    { st with mode := Mode.body } else st
  if st1.mode = Mode.body then .ok { st1 with bodyLines := st1.bodyLines ++ [line] }
  else if (gs "GRPC ").isPrefixOf line then
    .ok { st1 with req := { st1.req with
      Address := goTrimSpace (goStripLead (gs "GRPC") line) } }
  else processKV pd st1 line

/-- One iteration of the `parseContent` line loop.  The branch order
mirrors the Go code exactly: blank-skip (header mode only), comment,
section markers, captures mode, asserts mode, then body start/continuation,
`GRPC` address line and `key: value` dispatch via `processHeaderBody`. -/
def processLine (pd : GoStr → Except GoStr Nat) (st : PState) (line : GoStr) :
    Except GoStr PState :=
  let trimmed := goTrimSpace line
  if st.mode = Mode.header ∧ trimmed = [] then .ok st
  else if (gs "#").isPrefixOf trimmed then
    if st.req.Name = [] then
      .ok { st with req := { st.req with Name := goTrimSpace (goStripLead (gs "#") trimmed) } }
    else .ok st
  else if trimmed = gs "[Captures]" then .ok { st with mode := Mode.captures }
  else if trimmed = gs "[Asserts]" then .ok { st with mode := Mode.asserts }
  else if st.mode = Mode.captures then
    if trimmed = [] then .ok st
    else
      match splitAtChar ':' line with
      | none => .ok st
      | some kv =>
        .ok { st with req := { st.req with
          Captures := mapSet st.req.Captures (goTrimSpace kv.1) (goTrimSpace kv.2) } }
  else if st.mode = Mode.asserts then
    if trimmed = [] then .ok st
    else
      match parseAssertLine trimmed with
      | some a => .ok { st with req := { st.req with Asserts := st.req.Asserts ++ [a] } }
      | none => .ok st
  else processHeaderBody pd st line trimmed

/-- End of `parseContent`: join the body lines (default `"\x7b\x7d"`), then
validate the three required fields in the Go order. -/
def finalize (st : PState) : Except GoStr RequestFile :=
  let body := if st.bodyLines ≠ [] then goJoin (gs "\n") st.bodyLines else gs "\x7b\x7d"
  if st.req.Address = [] then .error (gs "missing required \x27GRPC <address>\x27 line")
  else if st.req.Service = [] then .error (gs "missing required \x27Service:\x27 field")
  else if st.req.Method = [] then .error (gs "missing required \x27Method:\x27 field")
  else .ok { st.req with Body := body }

/-- Embedding of `parseContent` (one segment → one record).  The
`requestNum` argument exists in the Go signature but is unused there too. -/
def parseContent (pd : GoStr → Except GoStr Nat) (lines : List GoStr)
    (_requestNum : Nat) : Except GoStr RequestFile :=
  match lines.foldlM (processLine pd) initState with
  | .error e => .error e
  | .ok st => finalize st

/-- Scanner loop of `ParseMultiple`: group lines into sections, treating a
line whose trimmed text is exactly `---` as a separator and dropping empty
sections (consecutive, leading or trailing separators produce none). -/
def goSections (lines : List GoStr) : List (List GoStr) :=
  let acc := lines.foldl
    (fun (acc : List (List GoStr) × List GoStr) line =>
      if goTrimSpace line = gs "---" then
        if acc.2 = [] then acc else (acc.1 ++ [acc.2], [])
      else (acc.1, acc.2 ++ [line]))
    ([], [])
  if acc.2 = [] then acc.1 else acc.1 ++ [acc.2]

/-- Per-section loop of `ParseMultiple`: parse each section in order,
wrapping the first failure as `request <i>: <err>` and stopping there. -/
def parseSectionsFrom (pd : GoStr → Except GoStr Nat) :
    Nat → List (List GoStr) → Except GoStr (List RequestFile)
  | _, [] => .ok []
  | i, s :: rest =>
    match parseContent pd s (i + 1) with
    | .error e => .error (gs "request " ++ natToStr (i + 1) ++ gs ": " ++ e)
    | .ok r =>
      match parseSectionsFrom pd (i + 1) rest with
      | .error e => .error e
      | .ok rs => .ok (r :: rs)

/-- Embedding of `file.ParseMultiple` on the already-scanned lines of the
file (opening and reading the file is external I/O). -/
def ParseMultiple (pd : GoStr → Except GoStr Nat) (lines : List GoStr) :
    Except GoStr (List RequestFile) :=
  let secs := goSections lines
  if secs = [] then .error (gs "no requests found in file")
  else parseSectionsFrom pd 0 secs

/-- Modelled from the claim's wording for C2: the segmentation that keeps
empty segments — the text between consecutive separator lines, including
the empty segments produced by leading, trailing or consecutive `---`. -/
def claimSegments : List GoStr → List (List GoStr)
  | [] => [[]]
  | line :: rest =>
    let r := claimSegments rest
    if goTrimSpace line = gs "---" then [] :: r
    else (line :: r.headD []) :: r.drop 1

/-! ## Run orchestration (cmd/run.go) -/

/-- Embedding of `client.ParseProtocol` (part of the repository's client
package); `Protocol` constants modelled by an enumeration. -/
inductive Protocol where
  | grpc
  | grpcWeb
  | connect
deriving DecidableEq

/-- Lowercasing for `strings.ToLower` (ASCII; protocol names are ASCII). -/
def goToLower (s : GoStr) : GoStr := s.map Char.toLower

/-- Embedding of `client.ParseProtocol`. -/
def ParseProtocol (s : GoStr) : Except GoStr Protocol :=
  if goToLower s = gs "grpc" then .ok .grpc
  else if goToLower s = gs "grpc-web" then .ok .grpcWeb
  else if goToLower s = gs "connect" then .ok .connect
  else .error (gs "invalid protocol \x22" ++ s ++ gs "\x22, must be one of: grpc, grpc-web, connect")

/-- External collaborators of the run loop in cmd/run.go: `pj` models
`encoding/json.Unmarshal` inside `EvaluateJSONPath`; `findM` models
`registry.FindMethod`; `toProto` models `client.JSONToProto` against the
resolved input descriptor; `callT` models one transport round trip
(`client.Call` followed by `client.ProtoToJSON`), taking the record index
and the substituted record and returning the response JSON text. -/
structure Env where
  pj : GoStr → Except GoStr Json
  findM : GoStr → GoStr → Except GoStr Unit
  toProto : GoStr → Except GoStr Unit
  callT : Nat → RequestFile → Except GoStr GoStr

/-- One iteration of the run loop for record `r` at index `i`: substitute
variables into address, body and header values, resolve the method, parse
the protocol, convert the body, make the call, collect captures
(failed captures are skipped), then evaluate every assertion.  The result
is the number of transport invocations (0 or 1) together with either a
fatal error or the updated variable store and whether all assertions of
this record passed. -/
def execRecord (env : Env) (vars : List (GoStr × GoStr)) (i : Nat) (r : RequestFile) :
    Nat × Except GoStr (List (GoStr × GoStr) × Bool) :=
  let r1 := { r with
    Address := Substitute r.Address vars,
    Body := Substitute r.Body vars,
    Headers := r.Headers.map (fun kv => (kv.1, Substitute kv.2 vars)) }
  match env.findM r1.Service r1.Method with
  | .error e => (0, .error e)
  | .ok _ =>
    match ParseProtocol r1.Protocol with
    | .error e => (0, .error e)
    | .ok _ =>
      match env.toProto r1.Body with
      | .error e => (0, .error (gs "failed to parse JSON input: " ++ e))
      | .ok _ =>
        match env.callT i r1 with
        | .error e => (1, .error (gs "RPC call failed: " ++ e))
        | .ok jsonOutput =>
          let vars1 := r1.Captures.foldl
            (fun vs kv =>
              match EvaluateJSONPath env.pj jsonOutput kv.2 with
              | .ok v => mapSet vs kv.1 v
              | .error _ => vs)
            vars
          let allPassed := r1.Asserts.foldl
            (fun acc a =>
              match Check env.pj a jsonOutput with
              | (res, none) => acc && res.Pass
              | (_, some _) => false)
            true
          (1, .ok (vars1, allPassed))

/-- Run loop over the remaining records, starting at index `i` with
variable store `vars`: returns the total number of transport invocations
together with the final variable store, or the error that aborted the run.
A record whose assertions did not all pass aborts with
`one or more assertions failed` and no later record executes. -/
def runFrom (env : Env) (vars : List (GoStr × GoStr)) (i : Nat) :
    List RequestFile → Nat × Except GoStr (List (GoStr × GoStr))
  | [] => (0, .ok vars)
  | r :: rs =>
    match execRecord env vars i r with
    | (c, .error e) => (c, .error e)
    | (c, .ok vp) =>
      if vp.2 then
        let next := runFrom env vp.1 (i + 1) rs
        (c + next.1, next.2)
      else (c, .error (gs "one or more assertions failed"))

/-! ## Concrete instances used by witnesses and counterexamples -/

/-- Trivial stand-in for `time.ParseDuration` (never consulted by the
inputs below, which carry no `Timeout:` line). -/
def pd0 : GoStr → Except GoStr Nat := fun _ => .error []

/-- Segment whose body starts with a brace and is followed by a
`[Captures]` marker line. -/
def c1Lines : List GoStr :=
  [gs "GRPC a", gs "Service: s", gs "Method: m", gs "\x7b", gs "[Captures]", gs "x: y"]

/-- Record that `parseContent` produces for `c1Lines`. -/
def c1Expected : RequestFile :=
  { Name := [], Address := gs "a", Service := gs "s", Method := gs "m",
    Protocol := gs "grpc-web", Timeout := 30000000000, Headers := [],
    Body := gs "\x7b", Captures := [(gs "x", gs "y")], Asserts := [] }

/-- Document with a leading separator line: one empty segment (under the
claim's segmentation) followed by one valid segment. -/
def c2Lines : List GoStr := [gs "---", gs "GRPC a", gs "Service: s", gs "Method: m"]

/-- Record that `ParseMultiple` produces for `c2Lines`. -/
def c2Expected : RequestFile :=
  { Name := [], Address := gs "a", Service := gs "s", Method := gs "m",
    Protocol := gs "grpc-web", Timeout := 30000000000, Headers := [],
    Body := gs "\x7b\x7d", Captures := [], Asserts := [] }

/-- Two-segment document, both segments valid. -/
def w2Lines : List GoStr :=
  [gs "GRPC a", gs "Service: s", gs "Method: m", gs "---",
   gs "GRPC b", gs "Service: t", gs "Method: n"]

/-- Input `\x7b\x7bA\x7d\x7d \x7b\x7bB\x7d\x7d` for the substitution
counterexample. -/
def s3 : GoStr := gs "\x7b\x7bA\x7d\x7d \x7b\x7bB\x7d\x7d"

/-- Mapping `A ↦ \x7b\x7bB\x7d\x7d`, `B ↦ \x7b\x7bA\x7d\x7d`. -/
def v3 : List (GoStr × GoStr) :=
  [(gs "A", gs "\x7b\x7bB\x7d\x7d"), (gs "B", gs "\x7b\x7bA\x7d\x7d")]

/-- Input `\x7b\x7bx\x7b\x7ba\x7d\x7d` for the idempotence counterexample:
replacing `\x7b\x7ba\x7d\x7d` by `\x7d\x7d` splices a fresh placeholder
`\x7b\x7bx\x7d\x7d` out of the surrounding text. -/
def s7 : GoStr := gs "\x7b\x7bx\x7b\x7ba\x7d\x7d"

/-- Mapping `x ↦ V`, `a ↦ \x7d\x7d`; neither value contains a placeholder. -/
def v7 : List (GoStr × GoStr) := [(gs "x", gs "V"), (gs "a", gs "\x7d\x7d")]

/-- Benign input for the idempotence witness. -/
def s7w : GoStr := gs "hello \x7b\x7bname\x7d\x7d"

/-- Benign mapping for the idempotence witness. -/
def v7w : List (GoStr × GoStr) := [(gs "name", gs "world")]

/-- JSON array `["read", "write"]`. -/
def permArr : Json := .arr (.cons (.str (gs "read")) (.cons (.str (gs "write")) .nil))

/-- JSON object with a `users` array of two user objects (names Bob and
Charlie), as in the repository's jsonpath test. -/
def usersObj : Json :=
  .obj (.cons (gs "users")
    (.arr (.cons (.obj (.cons (gs "name") (.str (gs "Bob")) .nil))
          (.cons (.obj (.cons (gs "name") (.str (gs "Charlie")) .nil)) .nil))) .nil)

/-- Stand-in for `json.Unmarshal` that parses everything to JSON null. -/
def pjNull : GoStr → Except GoStr Json := fun _ => .ok .null

/-- Assertion with an unrecognized operator. -/
def aUnknown : Assertion := ⟨gs "jsonpath", gs "$", gs "=~", gs "x"⟩

/-- Run environment whose externals always succeed and whose transport
always answers `\x7b\x7d`. -/
def env0 : Env := ⟨pjNull, fun _ _ => .ok (), fun _ => .ok (), fun _ _ => .ok (gs "\x7b\x7d")⟩

/-- Record carrying one assertion that fails against the `env0` response. -/
def rFail : RequestFile :=
  { Name := [], Address := gs "a", Service := gs "s", Method := gs "m",
    Protocol := gs "grpc-web", Timeout := 30000000000, Headers := [],
    Body := gs "\x7b\x7d", Captures := [],
    Asserts := [⟨gs "jsonpath", gs "$.x", gs "==", gs "1"⟩] }

/-- Minimal valid segment with no `Protocol:`, `Timeout:` or body lines. -/
def w8Lines : List GoStr := [gs "GRPC a", gs "Service: s", gs "Method: m"]

/-- Segment missing only the `Method:` field. -/
def w9Lines : List GoStr := [gs "GRPC a", gs "Service: s"]

/-- Parser state already in asserts mode. -/
def st10 : PState := { initState with mode := Mode.asserts }

/-- Parser state already in body mode. -/
def stBody : PState := { initState with mode := Mode.body }

/-- Assertion line whose value opens a quote that is never closed. -/
def line10 : GoStr := gs "jsonpath \x22$.id\x22 == \x22oops"

/-! ## Helper lemmas -/

/-- Decompose a successful `splitAtChar`: the first component is the text
before the first occurrence of `c` and the second the text after it. -/
lemma splitAtChar_eq {c : Char} {s a b : GoStr} (h : splitAtChar c s = some (a, b)) :
    s = a ++ c :: b ∧ c ∉ a := by
  induction s generalizing a b with
  | nil => simp [splitAtChar] at h
  | cons x xs ih =>
    simp only [splitAtChar] at h
    split at h
    · rename_i hx
      injection h with h1
      injection h1 with ha hb
      subst ha; subst hb
      exact ⟨by simp [hx], List.not_mem_nil _⟩
    · rename_i hx
      cases hsp : splitAtChar c xs with
      | none =>
        rw [hsp] at h
        exact Option.noConfusion h
      | some p =>
        rw [hsp] at h
        injection h with h1
        injection h1 with ha hb
        obtain ⟨he, hn⟩ := ih hsp
        subst ha; subst hb
        refine ⟨by simp [he], ?_⟩
        simp only [List.mem_cons, not_or]
        exact ⟨fun hcx => hx hcx.symm, hn⟩

/-- Length consequence of `splitAtChar_eq`. -/
lemma splitAtChar_len {c : Char} {s a b : GoStr} (h : splitAtChar c s = some (a, b)) :
    s.length = a.length + b.length + 1 := by
  have he := (splitAtChar_eq h).1
  rw [he]
  simp only [List.length_append, List.length_cons]
  omega

/-- The placeholder text is never empty. -/
lemma placeholderOf_ne_nil (k : GoStr) : placeholderOf k ≠ [] := by
  have he : placeholderOf k = '\x7b' :: ('\x7b' :: (k ++ gs "\x7d\x7d")) := rfl
  simp [he]

/-- Unfolding `goContains` on a cons cell when the result is false. -/
lemma goContains_false_cons {x : Char} {xs sub : GoStr}
    (h : goContains (x :: xs) sub = false) :
    sub.isPrefixOf (x :: xs) = false ∧ goContains xs sub = false := by
  unfold goContains at h
  split at h
  · simp at h
  · rename_i hpre
    refine ⟨?_, h⟩
    cases hb : List.isPrefixOf sub (x :: xs) with
    | false => rfl
    | true => exact absurd hb hpre

/-- A string with no occurrence of `pat` is returned unchanged by the
`ReplaceAll` loop at any fuel. -/
lemma replaceGo_of_not_contains {pat rep : GoStr} :
    ∀ (f : Nat) (s : GoStr), goContains s pat = false → replaceGo pat rep f s = s := by
  intro f
  induction f with
  | zero =>
    intro s h
    cases s with
    | nil =>
      unfold goContains at h
      split at h
      · simp at h
      · rename_i hpre
        unfold replaceGo
        rw [if_neg]
        intro hp
        subst hp
        simp [List.isPrefixOf] at hpre
    | cons c cs => rfl
  | succ f ih =>
    intro s h
    cases s with
    | nil =>
      unfold goContains at h
      split at h
      · simp at h
      · rename_i hpre
        unfold replaceGo
        rw [if_neg]
        intro hp
        subst hp
        simp [List.isPrefixOf] at hpre
    | cons c cs =>
      obtain ⟨hp1, hp2⟩ := goContains_false_cons h
      unfold replaceGo
      rw [if_neg, if_neg, ih cs hp2]
      · simp [hp1]
      · intro hp
        subst hp
        simp [List.isPrefixOf] at hp1

/-- Folding the per-key replacement passes over a string that contains none
of the placeholders leaves it unchanged. -/
lemma substFold_id {t : GoStr} :
    ∀ (vs : List (GoStr × GoStr)),
      (∀ kv ∈ vs, goContains t (placeholderOf kv.1) = false) →
      vs.foldl (fun result kv => goReplaceAll result (placeholderOf kv.1) kv.2) t = t := by
  intro vs
  induction vs with
  | nil => intro _; rfl
  | cons kv rest ih =>
    intro h
    have h1 : goReplaceAll t (placeholderOf kv.1) kv.2 = t :=
      replaceGo_of_not_contains t.length t (h kv (by simp))
    simp only [List.foldl_cons, h1]
    exact ih (fun kw hkw => h kw (by simp [hkw]))

/-- On a string with no remaining placeholder of `v`, `Substitute` is the
identity. -/
lemma Substitute_id {t : GoStr} {v : List (GoStr × GoStr)}
    (h : ∀ kv ∈ v, goContains t (placeholderOf kv.1) = false) :
    Substitute t v = t := by
  unfold Substitute
  split
  · rfl
  · exact substFold_id v h

/-- Computation of `findPlaceholder` on a one-entry mapping. -/
lemma findPlaceholder_single {k val : GoStr} (s : GoStr) :
    findPlaceholder [(k, val)] s =
      if (placeholderOf k).isPrefixOf s = true then
        some (val, s.drop (placeholderOf k).length)
      else none := by
  unfold findPlaceholder
  simp only [List.findSome?]
  split <;> simp_all

/-- For a one-entry mapping, the sequential `ReplaceAll` pass coincides with
the spec's single non-rescanning pass, fuel for fuel. -/
lemma replaceGo_spec_single {k val : GoStr} :
    ∀ (f : Nat) (s : GoStr),
      replaceGo (placeholderOf k) val f s = specSubstFuel [(k, val)] f s := by
  intro f
  induction f with
  | zero =>
    intro s
    cases s with
    | nil =>
      unfold replaceGo specSubstFuel
      rw [if_neg (placeholderOf_ne_nil k)]
    | cons c cs => rfl
  | succ f ih =>
    intro s
    cases s with
    | nil =>
      unfold replaceGo specSubstFuel
      rw [if_neg (placeholderOf_ne_nil k)]
    | cons c cs =>
      unfold replaceGo specSubstFuel
      rw [if_neg (placeholderOf_ne_nil k), findPlaceholder_single]
      by_cases hpre : (placeholderOf k).isPrefixOf (c :: cs) = true
      · rw [if_pos hpre, if_pos hpre]
        show val ++ replaceGo (placeholderOf k) val f ((c :: cs).drop (placeholderOf k).length) =
          val ++ specSubstFuel [(k, val)] f ((c :: cs).drop (placeholderOf k).length)
        rw [ih]
      · rw [if_neg hpre, if_neg hpre]
        show c :: replaceGo (placeholderOf k) val f cs = c :: specSubstFuel [(k, val)] f cs
        rw [ih]

/-! ## Claim C3 — literal, non-recursive substitution -/

/-- C3 (counterexample): with mapping `A ↦ \x7b\x7bB\x7d\x7d`,
`B ↦ \x7b\x7bA\x7d\x7d` (in this iteration order, which the Go map may
produce) and input `\x7b\x7bA\x7d\x7d \x7b\x7bB\x7d\x7d`, `Substitute`
yields `\x7b\x7bA\x7d\x7d \x7b\x7bA\x7d\x7d`: the value substituted for
`A` in the first pass was re-scanned and replaced by `B`'s pass, whereas
the claimed never-re-scanning substitution yields
`\x7b\x7bB\x7d\x7d \x7b\x7bA\x7d\x7d`.  So `Substitute` is not the claimed
non-recursive substitution. -/
theorem C3_counterexample :
    Substitute s3 v3 = gs "\x7b\x7bA\x7d\x7d \x7b\x7bA\x7d\x7d" ∧
    specSubstitute v3 s3 = gs "\x7b\x7bB\x7d\x7d \x7b\x7bA\x7d\x7d" ∧
    Substitute s3 v3 ≠ specSubstitute v3 s3 :=
  ⟨rfl, rfl, by decide⟩

/-- C3 (amended): for a single-entry mapping, `Substitute` performs literal
substring replacement of the placeholder and is not recursive — it equals
the spec's single left-to-right pass in which a substituted value is never
itself re-scanned.  (For mappings with several entries the per-key passes
run sequentially and later passes do re-scan earlier substitutions, as the
counterexample shows.) -/
theorem C3_single_key_not_recursive (k val input : GoStr) :
    Substitute input [(k, val)] = specSubstitute [(k, val)] input := by
  unfold Substitute specSubstitute
  rw [if_neg (by simp)]
  simp only [List.foldl_cons, List.foldl_nil]
  exact replaceGo_spec_single input.length input

/-! ## Claim C7 — idempotence of substitution -/

/-- C7 (counterexample): for the mapping `x ↦ V`, `a ↦ \x7d\x7d` no value
contains a placeholder of any key, yet on the input
`\x7b\x7bx\x7b\x7ba\x7d\x7d` substitution is not idempotent: the first
application splices the fresh placeholder `\x7b\x7bx\x7d\x7d` together out
of surrounding text and the replaced value, and the second application
replaces it. -/
theorem C7_counterexample :
    (∀ kv ∈ v7, ∀ kw ∈ v7, goContains kv.2 (placeholderOf kw.1) = false) ∧
    Substitute (Substitute s7 v7) v7 ≠ Substitute s7 v7 := by
  constructor
  · decide
  · decide

/-- C7 (amended): `Substitute` is idempotent on `s` whenever the once
substituted string contains no placeholder of any key of `v` — the
condition the claim states (no key's value contains a placeholder of a key
of `v`) is not sufficient, because a replacement can splice a new
placeholder together with surrounding text. -/
theorem C7_substitute_idempotent (s : GoStr) (v : List (GoStr × GoStr))
    (h : ∀ kv ∈ v, goContains (Substitute s v) (placeholderOf kv.1) = false) :
    Substitute (Substitute s v) v = Substitute s v :=
  Substitute_id h

/-- C7 (witness): on `hello \x7b\x7bname\x7d\x7d` with `name ↦ world`, the
hypothesis holds and substitution is idempotent. -/
theorem C7_witness :
    (∀ kv ∈ v7w, goContains (Substitute s7w v7w) (placeholderOf kv.1) = false) ∧
    Substitute (Substitute s7w v7w) v7w = Substitute s7w v7w :=
  ⟨by decide, C7_substitute_idempotent s7w v7w (by decide)⟩

/-! ## Claim C5 — the assertion evaluator never hard-fails -/

/-- C5: for every assertion spec and every response string (under any
behaviour `pj` of the external JSON unmarshaller), `Check` returns a nil Go
error — every problem is encoded in the result — and, for a path-kind
assertion whose path evaluation succeeded, an operator other than `==`,
`!=`, `contains` yields pass=false with message
`unknown operator '<operator>'`. -/
theorem C5_check_never_hard_fails (pj : GoStr → Except GoStr Json) (a : Assertion)
    (out : GoStr) :
    (Check pj a out).2 = none ∧
    (a.Typ = gs "jsonpath" → ∀ v, EvaluateJSONPath pj out a.Key = .ok v →
      a.Operator ≠ gs "==" → a.Operator ≠ gs "!=" → a.Operator ≠ gs "contains" →
      Check pj a out =
        (⟨false, gs "unknown operator \x27" ++ a.Operator ++ gs "\x27"⟩, none)) := by
  constructor
  · unfold Check
    split
    · rfl
    · split
      · rfl
      · split
        · rfl
        · rfl
  · intro h1 v h2 h3 h4 h5
    unfold Check
    rw [if_neg (by simp [h1]), h2]
    split
    · rename_i heq
      exact Except.noConfusion heq
    · rename_i val heq
      injection heq with hv
      subst hv
      rw [if_neg (by simp [h3, h4, h5])]

/-- C5 (witness): a concrete unknown-operator assertion against the trivial
unmarshaller: the Go error is nil and the result is the fail verdict with
the unknown-operator message. -/
theorem C5_witness :
    (Check pjNull aUnknown (gs "")).2 = none ∧
    Check pjNull aUnknown (gs "") =
      (⟨false, gs "unknown operator \x27" ++ aUnknown.Operator ++ gs "\x27"⟩, none) := by
  have h := C5_check_never_hard_fails pjNull aUnknown (gs "")
  exact ⟨h.1, h.2 rfl (gs "<nil>") rfl (by decide) (by decide) (by decide)⟩

/-! ## Path-evaluator lemmas -/

/-- Lists with different heads are not prefixes. -/
lemma isPrefixOf_cons_false {a b : Char} (as bs : GoStr) (h : a ≠ b) :
    (a :: as).isPrefixOf (b :: bs) = false := by
  show (a == b && as.isPrefixOf bs) = false
  rw [beq_eq_false_iff_ne.mpr h, Bool.false_and]

/-- Stripping the root selector never lengthens the path. -/
lemma stripDollar_le (p : GoStr) : (stripDollar p).length ≤ p.length := by
  unfold stripDollar
  split
  · simp only [List.length_drop]
    omega
  · split
    · simp only [List.length_drop]
      omega
    · exact le_refl _

/-- A path that does not start with `$` is unchanged by the root strip. -/
lemma stripDollar_cons {c : Char} (t : GoStr) (hc : c ≠ '$') :
    stripDollar (c :: t) = c :: t := by
  have h1 : (gs "$.").isPrefixOf (c :: t) = false := by
    show ('$' :: '.' :: []).isPrefixOf (c :: t) = false
    exact isPrefixOf_cons_false _ _ (Ne.symm hc)
  have h2 : (gs "$").isPrefixOf (c :: t) = false := by
    show ('$' :: []).isPrefixOf (c :: t) = false
    exact isPrefixOf_cons_false _ _ (Ne.symm hc)
  unfold stripDollar
  rw [if_neg (by simp [h1]), if_neg (by simp [h2])]

/-- Stripping a prefix never lengthens a string. -/
lemma goStripLead_le (pre s : GoStr) : (goStripLead pre s).length ≤ s.length := by
  unfold goStripLead
  split
  · simp only [List.length_drop]
    omega
  · exact le_refl _

/-- The dot-notation step only calls `rec` on strictly shorter paths (no
trailing rest): congruence in `rec`. -/
lemma evalKeyStep_congr_none {rec1 rec2 : Json → GoStr → Except GoStr Json} {data : Json}
    {key : GoStr}
    (hrk : ∀ rk ab, splitAtChar '[' key = some (rk, ab) → rk ≠ [])
    (h : ∀ d q, q.length < key.length → rec1 d q = rec2 d q) :
    evalKeyStep rec1 data key none = evalKeyStep rec2 data key none := by
  unfold evalKeyStep
  split
  · rename_i rk ab hsp
    dsimp only
    split
    · rename_i kvs
      split
      · rename_i v hv
        apply h
        have hlen := splitAtChar_len hsp
        have hrk1 : rk ≠ [] := hrk rk ab hsp
        have hrkl : 1 ≤ rk.length := by
          cases rk with
          | nil => exact absurd rfl hrk1
          | cons z zs => simp
        simp only [List.length_append, List.length_cons, List.length_nil]
        omega
      · rfl
    · rfl
  · split
    · rename_i kvs
      split
      · rfl
      · rfl
    · rfl

/-- The dot-notation step with a trailing rest only calls `rec` on paths
shorter than `key ++ "." ++ r`: congruence in `rec`. -/
lemma evalKeyStep_congr_some {rec1 rec2 : Json → GoStr → Except GoStr Json} {data : Json}
    {key r : GoStr}
    (hrk : ∀ rk ab, splitAtChar '[' key = some (rk, ab) → rk ≠ [])
    (h : ∀ d q, q.length < key.length + r.length + 1 → rec1 d q = rec2 d q) :
    evalKeyStep rec1 data key (some r) = evalKeyStep rec2 data key (some r) := by
  unfold evalKeyStep
  split
  · rename_i rk ab hsp
    dsimp only
    split
    · rename_i kvs
      split
      · rename_i v hv
        apply h
        have hlen := splitAtChar_len hsp
        have hrk1 : rk ≠ [] := hrk rk ab hsp
        have hrkl : 1 ≤ rk.length := by
          cases rk with
          | nil => exact absurd rfl hrk1
          | cons z zs => simp
        simp only [List.length_append, List.length_cons]
        omega
      · rfl
    · rfl
  · split
    · rename_i kvs
      split
      · apply h
        omega
      · rfl
    · rfl

/-- One evaluator step only calls `rec` on strictly shorter paths:
congruence in `rec`. -/
lemma evalStep_congr {rec1 rec2 : Json → GoStr → Except GoStr Json} (data : Json)
    (path : GoStr)
    (h : ∀ d q, q.length < path.length → rec1 d q = rec2 d q) :
    evalStep rec1 data path = evalStep rec2 data path := by
  unfold evalStep
  split
  · rfl
  · rename_i c tl hstrip
    have hle : tl.length + 1 ≤ path.length := by
      have h0 := stripDollar_le path
      rw [hstrip] at h0
      simpa using h0
    by_cases hc : c = '['
    · rw [if_pos hc, if_pos hc]
      split
      · rfl
      · rename_i idxStr rest hsp
        split
        · rfl
        · rename_i idx hatoi
          split
          · rename_i xs
            by_cases hb : idx < 0 ∨ (elemsLength xs : Int) ≤ idx
            · rw [if_pos hb, if_pos hb]
            · rw [if_neg hb, if_neg hb]
              apply h
              have hlen := splitAtChar_len hsp
              have hsl := goStripLead_le (gs ".") rest
              omega
          · rfl
    · rw [if_neg hc, if_neg hc]
      split
      · rename_i kr hd
        apply evalKeyStep_congr_some
        · intro rk ab hsp2 hrk
          subst hrk
          obtain ⟨hkeq, -⟩ := splitAtChar_eq hd
          obtain ⟨hk2, -⟩ := splitAtChar_eq hsp2
          simp only [List.nil_append] at hk2
          rw [hk2] at hkeq
          injection hkeq with hc2
          exact hc hc2
        · intro d q hq
          apply h
          have hlen := splitAtChar_len hd
          simp only [List.length_cons] at hlen
          omega
      · rename_i hd
        apply evalKeyStep_congr_none
        · intro rk ab hsp2 hrk
          subst hrk
          obtain ⟨hk2, -⟩ := splitAtChar_eq hsp2
          simp only [List.nil_append] at hk2
          injection hk2 with hc2
          exact hc hc2
        · intro d q hq
          apply h
          simp only [List.length_cons] at hq
          omega

/-- Fuel irrelevance for the path evaluator: any fuel strictly above the
path length computes the same result. -/
lemma evalGo_irrel : ∀ (f1 f2 : Nat) (data : Json) (p : GoStr),
    p.length < f1 → p.length < f2 → evalGo f1 data p = evalGo f2 data p := by
  intro f1
  induction f1 with
  | zero =>
    intro f2 data p h1 h2
    exact absurd h1 (Nat.not_lt_zero _)
  | succ fa ih =>
    intro f2 data p h1 h2
    cases f2 with
    | zero => exact absurd h2 (Nat.not_lt_zero _)
    | succ fb =>
      show evalStep (evalGo fa) data p = evalStep (evalGo fb) data p
      apply evalStep_congr
      intro d q hq
      exact ih fb d q (by omega) (by omega)

/-! ## Claim C6 — bracket indexing in the path evaluator -/

/-- C6: for every JSON value and path beginning with a bracketed index, an
unmatched bracket is an error; an unparseable index is an error; a
non-array current value is an error; a negative or too-large index gives
the `array index out of bounds` error; and an in-range index continues
evaluation on that element with the remaining path, a leading dot
stripped. -/
theorem C6_bracket_indexing (data : Json) (tl : GoStr) :
    (splitAtChar ']' tl = none →
      evaluatePath data ('[' :: tl) =
        .error (gs "unclosed array index in path: " ++ '[' :: tl)) ∧
    (∀ idxStr rest, splitAtChar ']' tl = some (idxStr, rest) → goAtoi idxStr = none →
      evaluatePath data ('[' :: tl) =
        .error (gs "invalid array index \x27" ++ idxStr ++ gs "\x27")) ∧
    (∀ idxStr rest idx, splitAtChar ']' tl = some (idxStr, rest) → goAtoi idxStr = some idx →
      ((∀ xs, data ≠ Json.arr xs) →
        evaluatePath data ('[' :: tl) =
          .error (gs "expected array but got " ++ typeName data)) ∧
      (∀ xs, data = Json.arr xs → (idx < 0 ∨ (elemsLength xs : Int) ≤ idx) →
        evaluatePath data ('[' :: tl) =
          .error (gs "array index out of bounds: " ++ intToStr idx)) ∧
      (∀ xs, data = Json.arr xs → 0 ≤ idx → idx < (elemsLength xs : Int) →
        evaluatePath data ('[' :: tl) =
          evaluatePath (elemsGetD xs idx.toNat) (goStripLead (gs ".") rest))) := by
  have hd : stripDollar ('[' :: tl) = '[' :: tl := stripDollar_cons tl (by decide)
  refine ⟨?_, ?_, ?_⟩
  · intro hsp
    show evalStep (evalGo (tl.length + 1)) data ('[' :: tl) = _
    simp only [evalStep, hd, hsp, if_true]
  · intro idxStr rest hsp hatoi
    show evalStep (evalGo (tl.length + 1)) data ('[' :: tl) = _
    simp only [evalStep, hd, hsp, hatoi, if_true]
  · intro idxStr rest idx hsp hatoi
    refine ⟨?_, ?_, ?_⟩
    · intro hna
      show evalStep (evalGo (tl.length + 1)) data ('[' :: tl) = _
      simp only [evalStep, hd, hsp, hatoi, if_true]
    · intro xs hxs hb
      subst hxs
      show evalStep (evalGo (tl.length + 1)) (Json.arr xs) ('[' :: tl) = _
      simp only [evalStep, hd, hsp, hatoi, if_true]
      rw [if_pos hb]
    · intro xs hxs h0 hlt
      subst hxs
      show evalStep (evalGo (tl.length + 1)) (Json.arr xs) ('[' :: tl) = _
      simp only [evalStep, hd, hsp, hatoi, if_true]
      rw [if_neg (by rw [not_or]; exact ⟨not_lt.mpr h0, not_le.mpr hlt⟩)]
      unfold evaluatePath
      apply evalGo_irrel
      · have h1 := goStripLead_le (gs ".") rest
        have h2 := splitAtChar_len hsp
        omega
      · exact Nat.lt_succ_self _

/-- C6 (witness): `[5]` against the two-element array errors with the
out-of-bounds message; `[1]` continues on the second element; and the
claim's `users[1].name` example yields the second user's name. -/
theorem C6_witness :
    evaluatePath permArr (gs "[5]") = .error (gs "array index out of bounds: 5") ∧
    evaluatePath permArr (gs "[1]") =
      evaluatePath (Json.str (gs "write")) (goStripLead (gs ".") []) ∧
    evaluatePath (Json.str (gs "write")) [] = .ok (Json.str (gs "write")) ∧
    evaluatePath usersObj (gs "users[1].name") = .ok (Json.str (gs "Charlie")) := by
  refine ⟨?_, ?_, rfl, rfl⟩
  · have h := (C6_bracket_indexing permArr (gs "5]")).2.2 (gs "5") [] 5 rfl rfl
    exact h.2.1 _ rfl (by decide)
  · have h := (C6_bracket_indexing permArr (gs "1]")).2.2 (gs "1") [] 1 rfl rfl
    exact h.2.2 _ rfl (by decide) (by decide)

/-! ## Parser lemmas -/

/-- Invariant propagation along the `parseContent` line loop. -/
lemma foldlM_ok_inv (pd : GoStr → Except GoStr Nat) (Q : GoStr → Prop) (P : PState → Prop)
    (hstep : ∀ st l st', Q l → P st → processLine pd st l = .ok st' → P st') :
    ∀ (lines : List GoStr) (st st' : PState), (∀ l ∈ lines, Q l) → P st →
      lines.foldlM (processLine pd) st = .ok st' → P st' := by
  intro lines
  induction lines with
  | nil =>
    intro st st' hQ hP h
    have h2 : (Except.ok st : Except GoStr PState) = .ok st' := h
    injection h2 with he
    subst he
    exact hP
  | cons l ls ih =>
    intro st st' hQ hP h
    rw [List.foldlM_cons] at h
    cases hpl : processLine pd st l with
    | error e =>
      rw [hpl] at h
      have h3 : (Except.error e : Except GoStr PState) = .ok st' := h
      exact Except.noConfusion h3
    | ok st1 =>
      rw [hpl] at h
      have h2 : ls.foldlM (processLine pd) st1 = .ok st' := h
      exact ih st1 st' (fun x hx => hQ x (by simp [hx]))
        (hstep st l st1 (hQ l (by simp)) hP hpl) h2

/-- A line whose key is not `Protocol` leaves the protocol field unchanged
by the `key: value` dispatch. -/
lemma processKV_protocol {pd : GoStr → Except GoStr Nat} {st1 : PState} {line : GoStr}
    {st' : PState} (hk : lineKeyOf line ≠ some (gs "Protocol"))
    (h : processKV pd st1 line = .ok st') : st'.req.Protocol = st1.req.Protocol := by
  simp only [processKV] at h
  repeat' split at h
  all_goals
    first
      | exact Except.noConfusion h
      | (injection h with he; subst he; first | rfl | (exfalso; apply hk; simp_all [lineKeyOf]))

/-- A line whose key is not `Timeout` leaves the timeout field unchanged by
the `key: value` dispatch. -/
lemma processKV_timeout {pd : GoStr → Except GoStr Nat} {st1 : PState} {line : GoStr}
    {st' : PState} (hk : lineKeyOf line ≠ some (gs "Timeout"))
    (h : processKV pd st1 line = .ok st') : st'.req.Timeout = st1.req.Timeout := by
  simp only [processKV] at h
  repeat' split at h
  all_goals
    first
      | exact Except.noConfusion h
      | (injection h with he; subst he; first | rfl | (exfalso; apply hk; simp_all [lineKeyOf]))

/-- The `key: value` dispatch never changes the mode or the body lines. -/
lemma processKV_state {pd : GoStr → Except GoStr Nat} {st1 : PState} {line : GoStr}
    {st' : PState} (h : processKV pd st1 line = .ok st') :
    st'.mode = st1.mode ∧ st'.bodyLines = st1.bodyLines := by
  simp only [processKV] at h
  repeat' split at h
  all_goals
    first
      | exact Except.noConfusion h
      | (injection h with he; subst he; exact ⟨rfl, rfl⟩)

/-- Protocol preservation through the body/address/`key: value` part. -/
lemma processHeaderBody_protocol {pd : GoStr → Except GoStr Nat} {st : PState}
    {line trimmed : GoStr} {st' : PState} (hk : lineKeyOf line ≠ some (gs "Protocol"))
    (h : processHeaderBody pd st line trimmed = .ok st') :
    st'.req.Protocol = st.req.Protocol := by
  simp only [processHeaderBody] at h
  repeat' split at h
  all_goals
    first
      | exact Except.noConfusion h
      | (injection h with he; subst he; rfl)
      | (rw [processKV_protocol hk h])

/-- Timeout preservation through the body/address/`key: value` part. -/
lemma processHeaderBody_timeout {pd : GoStr → Except GoStr Nat} {st : PState}
    {line trimmed : GoStr} {st' : PState} (hk : lineKeyOf line ≠ some (gs "Timeout"))
    (h : processHeaderBody pd st line trimmed = .ok st') :
    st'.req.Timeout = st.req.Timeout := by
  simp only [processHeaderBody] at h
  repeat' split at h
  all_goals
    first
      | exact Except.noConfusion h
      | (injection h with he; subst he; rfl)
      | (rw [processKV_timeout hk h])

/-- When the trimmed line does not open a brace, the body/address/`key:
value` part keeps the parser out of body mode with no body lines. -/
lemma processHeaderBody_body {pd : GoStr → Except GoStr Nat} {st : PState}
    {line trimmed : GoStr} {st' : PState}
    (hb : (gs "\x7b").isPrefixOf trimmed = false)
    (hm : st.mode ≠ Mode.body) (hbl : st.bodyLines = [])
    (h : processHeaderBody pd st line trimmed = .ok st') :
    st'.mode ≠ Mode.body ∧ st'.bodyLines = [] := by
  simp only [processHeaderBody] at h
  have hcond : ¬(st.mode = Mode.header ∧ (gs "\x7b").isPrefixOf trimmed = true) := by
    intro hc
    rw [hc.2] at hb
    exact Bool.noConfusion hb
  rw [if_neg hcond, if_neg hm] at h
  split at h
  · injection h with he
    subst he
    exact ⟨hm, hbl⟩
  · obtain ⟨h1, h2⟩ := processKV_state h
    rw [h1, h2]
    exact ⟨hm, hbl⟩

/-- A line whose key is not `Protocol` leaves the protocol field unchanged. -/
lemma processLine_protocol {pd : GoStr → Except GoStr Nat} {st : PState} {line : GoStr}
    {st' : PState} (hk : lineKeyOf line ≠ some (gs "Protocol"))
    (h : processLine pd st line = .ok st') : st'.req.Protocol = st.req.Protocol := by
  simp only [processLine] at h
  repeat' split at h
  all_goals
    first
      | exact Except.noConfusion h
      | (injection h with he; subst he; rfl)
      | (exact processHeaderBody_protocol hk h)

/-- A line whose key is not `Timeout` leaves the timeout field unchanged. -/
lemma processLine_timeout {pd : GoStr → Except GoStr Nat} {st : PState} {line : GoStr}
    {st' : PState} (hk : lineKeyOf line ≠ some (gs "Timeout"))
    (h : processLine pd st line = .ok st') : st'.req.Timeout = st.req.Timeout := by
  simp only [processLine] at h
  repeat' split at h
  all_goals
    first
      | exact Except.noConfusion h
      | (injection h with he; subst he; rfl)
      | (exact processHeaderBody_timeout hk h)

/-- A line whose trimmed text does not open a brace keeps the parser out of
body mode and keeps the collected body lines empty. -/
lemma processLine_body {pd : GoStr → Except GoStr Nat} {st : PState} {line : GoStr}
    {st' : PState} (hb : (gs "\x7b").isPrefixOf (goTrimSpace line) = false)
    (hP : st.mode ≠ Mode.body ∧ st.bodyLines = [])
    (h : processLine pd st line = .ok st') : st'.mode ≠ Mode.body ∧ st'.bodyLines = [] := by
  obtain ⟨hm, hbl⟩ := hP
  simp only [processLine] at h
  repeat' split at h
  all_goals
    first
      | exact Except.noConfusion h
      | (injection h with he; subst he; exact ⟨hm, hbl⟩)
      | (exact processHeaderBody_body hb hm hbl h)
      | (injection h with he; subst he; refine ⟨?_, ?_⟩ <;> simp_all)

/-- Field relations between a `finalize` result and the loop state. -/
lemma finalize_ok {st : PState} {req : RequestFile} (h : finalize st = .ok req) :
    req.Protocol = st.req.Protocol ∧ req.Timeout = st.req.Timeout ∧
      (st.bodyLines = [] → req.Body = gs "\x7b\x7d") := by
  simp only [finalize] at h
  repeat' split at h
  all_goals
    first
      | exact Except.noConfusion h
      | (injection h with he; subst he; refine ⟨rfl, rfl, ?_⟩; simp_all)

/-! ## Claim C8 — default protocol, timeout and body -/

/-- C8: a segment that parses successfully and has no `Protocol:` line
keeps the web-compatible default `grpc-web`; one with no `Timeout:` line
keeps 30 seconds (30000000000 ns); one with no line whose trimmed text
starts a brace keeps body `\x7b\x7d`. -/
theorem C8_defaults (pd : GoStr → Except GoStr Nat) (lines : List GoStr) (n : Nat)
    (req : RequestFile) (h : parseContent pd lines n = .ok req) :
    ((∀ l ∈ lines, lineKeyOf l ≠ some (gs "Protocol")) → req.Protocol = gs "grpc-web") ∧
    ((∀ l ∈ lines, lineKeyOf l ≠ some (gs "Timeout")) → req.Timeout = 30000000000) ∧
    ((∀ l ∈ lines, ((gs "\x7b").isPrefixOf (goTrimSpace l)) = false) →
      req.Body = gs "\x7b\x7d") := by
  unfold parseContent at h
  cases hf : lines.foldlM (processLine pd) initState with
  | error e =>
    rw [hf] at h
    exact Except.noConfusion h
  | ok st =>
    rw [hf] at h
    have h2 : finalize st = .ok req := h
    have hfin := finalize_ok h2
    refine ⟨?_, ?_, ?_⟩
    · intro hQ
      have hP : st.req.Protocol = gs "grpc-web" :=
        foldlM_ok_inv pd (fun l => lineKeyOf l ≠ some (gs "Protocol"))
          (fun s => s.req.Protocol = gs "grpc-web")
          (fun s l s' hq hp hpl => by
            show s'.req.Protocol = gs "grpc-web"
            rw [processLine_protocol hq hpl]
            exact hp)
          lines initState st hQ rfl hf
      rw [hfin.1, hP]
    · intro hQ
      have hP : st.req.Timeout = 30000000000 :=
        foldlM_ok_inv pd (fun l => lineKeyOf l ≠ some (gs "Timeout"))
          (fun s => s.req.Timeout = 30000000000)
          (fun s l s' hq hp hpl => by
            show s'.req.Timeout = 30000000000
            rw [processLine_timeout hq hpl]
            exact hp)
          lines initState st hQ rfl hf
      rw [hfin.2.1, hP]
    · intro hQ
      have hP : st.mode ≠ Mode.body ∧ st.bodyLines = [] :=
        foldlM_ok_inv pd (fun l => ((gs "\x7b").isPrefixOf (goTrimSpace l)) = false)
          (fun s => s.mode ≠ Mode.body ∧ s.bodyLines = [])
          (fun s l s' hq hp hpl => processLine_body hq hp hpl)
          lines initState st hQ ⟨by decide, rfl⟩ hf
      exact hfin.2.2 hP.2

/-- C8 (witness): the minimal valid segment keeps all three defaults. -/
theorem C8_witness :
    ∃ req, parseContent pd0 w8Lines 1 = .ok req ∧
      req.Protocol = gs "grpc-web" ∧ req.Timeout = 30000000000 ∧
      req.Body = gs "\x7b\x7d" := by
  refine ⟨_, rfl, ?_⟩
  have h := C8_defaults pd0 w8Lines 1 _ rfl
  exact ⟨h.1 (by decide), h.2.1 (by decide), h.2.2 (by decide)⟩

/-! ## Claim C9 — field-specific errors for missing required fields -/

/-- C9: when the line loop completes, an empty address, service or method
makes `parseContent` fail with the field-naming error, checked in the Go
order, so each missing field is independently detectable. -/
theorem C9_missing_fields (pd : GoStr → Except GoStr Nat) (lines : List GoStr) (n : Nat)
    (st : PState) (h : lines.foldlM (processLine pd) initState = .ok st) :
    (st.req.Address = [] →
      parseContent pd lines n = .error (gs "missing required \x27GRPC <address>\x27 line")) ∧
    (st.req.Address ≠ [] → st.req.Service = [] →
      parseContent pd lines n = .error (gs "missing required \x27Service:\x27 field")) ∧
    (st.req.Address ≠ [] → st.req.Service ≠ [] → st.req.Method = [] →
      parseContent pd lines n = .error (gs "missing required \x27Method:\x27 field")) := by
  have hpc : parseContent pd lines n = finalize st := by
    unfold parseContent
    rw [h]
  refine ⟨?_, ?_, ?_⟩
  · intro ha
    rw [hpc]
    simp only [finalize]
    rw [if_pos ha]
  · intro ha hs
    rw [hpc]
    simp only [finalize]
    rw [if_neg ha, if_pos hs]
  · intro ha hs hm
    rw [hpc]
    simp only [finalize]
    rw [if_neg ha, if_neg hs, if_pos hm]

/-- C9 (witness): a segment with only address and service fails with the
method-specific error. -/
theorem C9_witness :
    parseContent pd0 w9Lines 1 = .error (gs "missing required \x27Method:\x27 field") := by
  have h := C9_missing_fields pd0 w9Lines 1 _ rfl
  exact h.2.2 (by decide) (by decide) rfl

/-! ## Claim C10 — unterminated quoted assertion value -/

/-- C10: in asserts mode, an assertion line that passes the kind, key and
operator steps and whose value part opens a double quote that is never
closed is still recorded, with the expected value equal to the empty
string. -/
theorem C10_unterminated_value (pd : GoStr → Except GoStr Nat) (st : PState) (line : GoStr)
    (t k o r : GoStr) (hm : st.mode = Mode.asserts)
    (hne : goTrimSpace line ≠ [])
    (hcm : (gs "#").isPrefixOf (goTrimSpace line) = false)
    (hc1 : goTrimSpace line ≠ gs "[Captures]")
    (hc2 : goTrimSpace line ≠ gs "[Asserts]")
    (hsteps : stepsToValue (goTrimSpace line) = some (t, k, o, r))
    (hq : (gs "\x22").isPrefixOf r = true)
    (hnq : splitAtChar '\x22' (r.drop 1) = none) :
    processLine pd st line = .ok
      { st with req := { st.req with Asserts := st.req.Asserts ++ [⟨t, k, o, []⟩] } } := by
  have hval : parseAssertValue r = [] := by
    unfold parseAssertValue
    rw [if_pos hq, hnq]
  have hline : parseAssertLine (goTrimSpace line) = some ⟨t, k, o, []⟩ := by
    unfold parseAssertLine
    rw [hsteps, Option.map_some', hval]
  simp only [processLine]
  rw [if_neg (fun hc => by rw [hm] at hc; exact Mode.noConfusion hc.1)]
  rw [if_neg (by simp [hcm]), if_neg hc1, if_neg hc2]
  rw [if_neg (fun hc => by rw [hm] at hc; exact Mode.noConfusion hc)]
  rw [if_pos hm, if_neg hne, hline]

/-- C10 (witness): the line `jsonpath "$.id" == "oops` (no closing quote)
is recorded in asserts mode with empty expected value. -/
theorem C10_witness :
    processLine pd0 st10 line10 = .ok
      { st10 with req := { st10.req with
        Asserts := st10.req.Asserts ++ [⟨gs "jsonpath", gs "$.id", gs "==", []⟩] } } :=
  C10_unterminated_value pd0 st10 line10 (gs "jsonpath") (gs "$.id") (gs "==")
    (gs "\x22oops") rfl (by decide) (by decide) (by decide) (by decide) rfl rfl rfl

/-! ## Claim C1 — behaviour of body mode -/

/-- C1 (counterexample): a segment whose body starts and is then followed
by a `[Captures]` marker line.  The claim says the marker and the capture
line are stored as body text; the code instead leaves body mode at the
marker and parses the capture, so the body is just the opening brace. -/
theorem C1_counterexample :
    parseContent pd0 c1Lines 1 = .ok c1Expected ∧
    c1Expected.Body = gs "\x7b" ∧
    c1Expected.Captures = [(gs "x", gs "y")] :=
  ⟨rfl, rfl, rfl⟩

/-- C1 (amended): once body mode has started, a line whose trimmed text is
exactly `[Captures]` or `[Asserts]` still switches mode (and is not stored
as body text), a comment line (trimmed text starting `#`) is consumed
without touching the body, and every other line — including blank lines —
is appended verbatim to the collected body lines. -/
theorem C1_body_mode (pd : GoStr → Except GoStr Nat) (st : PState) (line : GoStr)
    (hm : st.mode = Mode.body) :
    (goTrimSpace line = gs "[Captures]" →
      processLine pd st line = .ok { st with mode := Mode.captures }) ∧
    (goTrimSpace line = gs "[Asserts]" →
      processLine pd st line = .ok { st with mode := Mode.asserts }) ∧
    ((gs "#").isPrefixOf (goTrimSpace line) = true →
      ∃ nm, processLine pd st line = .ok { st with req := { st.req with Name := nm } }) ∧
    ((gs "#").isPrefixOf (goTrimSpace line) = false →
      goTrimSpace line ≠ gs "[Captures]" → goTrimSpace line ≠ gs "[Asserts]" →
      processLine pd st line = .ok { st with bodyLines := st.bodyLines ++ [line] }) := by
  have hnh : ¬(st.mode = Mode.header ∧ goTrimSpace line = []) := by
    intro hc
    rw [hm] at hc
    exact Mode.noConfusion hc.1
  refine ⟨?_, ?_, ?_, ?_⟩
  · intro htr
    simp only [processLine]
    rw [if_neg hnh, if_neg (by rw [htr]; decide), if_pos htr]
  · intro htr
    simp only [processLine]
    rw [if_neg hnh, if_neg (by rw [htr]; decide), if_neg (by rw [htr]; decide), if_pos htr]
  · intro hcm
    simp only [processLine]
    rw [if_neg hnh, if_pos hcm]
    by_cases hn : st.req.Name = []
    · exact ⟨goTrimSpace (goStripLead (gs "#") (goTrimSpace line)), by rw [if_pos hn]⟩
    · exact ⟨st.req.Name, by rw [if_neg hn]⟩
  · intro hcm hn1 hn2
    simp only [processLine]
    rw [if_neg hnh, if_neg (by simp [hcm]), if_neg hn1, if_neg hn2]
    rw [if_neg (fun hc => by rw [hm] at hc; exact Mode.noConfusion hc)]
    rw [if_neg (fun hc => by rw [hm] at hc; exact Mode.noConfusion hc)]
    simp only [processHeaderBody]
    have hcond : ¬(st.mode = Mode.header ∧ (gs "\x7b").isPrefixOf (goTrimSpace line) = true) := by
      intro hc
      rw [hm] at hc
      exact Mode.noConfusion hc.1
    rw [if_neg hcond, if_pos hm]

/-- C1 (witness): in body mode a `[Captures]` line switches to captures
mode, and a blank line is appended verbatim to the body. -/
theorem C1_witness :
    processLine pd0 stBody (gs "[Captures]") = .ok { stBody with mode := Mode.captures } ∧
    processLine pd0 stBody [] = .ok { stBody with bodyLines := stBody.bodyLines ++ [[]] } :=
  ⟨(C1_body_mode pd0 stBody (gs "[Captures]") rfl).1 rfl,
   (C1_body_mode pd0 stBody [] rfl).2.2.2 (by decide) (by decide) (by decide)⟩

/-! ## Claim C2 — segment counting in ParseMultiple -/

/-- When every section parses, the per-section loop returns one record per
section. -/
lemma parseSectionsFrom_len (pd : GoStr → Except GoStr Nat) :
    ∀ (secs : List (List GoStr)) (i : Nat),
      (∀ s ∈ secs, ∃ r, parseContent pd s 1 = .ok r) →
      ∃ rs, parseSectionsFrom pd i secs = .ok rs ∧ rs.length = secs.length := by
  intro secs
  induction secs with
  | nil => intro i _; exact ⟨[], rfl, rfl⟩
  | cons s rest ih =>
    intro i h
    obtain ⟨r, hr⟩ := h s (by simp)
    have hr2 : parseContent pd s (i + 1) = .ok r := hr
    obtain ⟨rs, hrs, hlen⟩ := ih (i + 1) (fun x hx => h x (by simp [hx]))
    refine ⟨r :: rs, ?_, by simp [hlen]⟩
    simp only [parseSectionsFrom, hr2, hrs]

/-- If some section fails to parse, the per-section loop never returns a
record list. -/
lemma parseSectionsFrom_err (pd : GoStr → Except GoStr Nat) :
    ∀ (secs : List (List GoStr)) (i : Nat) (s0 : List GoStr), s0 ∈ secs →
      (∀ r, parseContent pd s0 1 ≠ .ok r) →
      ∀ rs, parseSectionsFrom pd i secs ≠ .ok rs := by
  intro secs
  induction secs with
  | nil =>
    intro i s0 h0
    simp at h0
  | cons s rest ih =>
    intro i s0 h0 hbad rs h
    simp only [parseSectionsFrom] at h
    cases hpc : parseContent pd s (i + 1) with
    | error e =>
      rw [hpc] at h
      exact Except.noConfusion h
    | ok r =>
      rw [hpc] at h
      rcases List.mem_cons.mp h0 with h0 | h0
      · subst h0
        exact hbad r hpc
      · cases hrest : parseSectionsFrom pd (i + 1) rest with
        | error e =>
          rw [hrest] at h
          exact Except.noConfusion h
        | ok rs2 => exact ih (i + 1) s0 h0 hbad rs2 hrest

/-- C2 (counterexample): under the claim's segmentation (which counts the
empty segments produced by leading separators), `c2Lines` has 2 segments,
the empty one being invalid — so the claim requires failure.  The code
drops empty segments and succeeds with a single record. -/
theorem C2_counterexample :
    (claimSegments c2Lines).length = 2 ∧
    parseContent pd0 [] 1 = .error (gs "missing required \x27GRPC <address>\x27 line") ∧
    ParseMultiple pd0 c2Lines = .ok [c2Expected] :=
  ⟨rfl, rfl, rfl⟩

/-- C2 (amended): segments are the maximal non-empty groups of lines
between separator lines; empty segments from leading, trailing or
consecutive separators are discarded.  With zero segments `ParseMultiple`
fails with `no requests found in file`; with N ≥ 1 segments it returns
exactly N records when every segment is valid and fails when any segment
is invalid. -/
theorem C2_segment_counting (pd : GoStr → Except GoStr Nat) (lines : List GoStr) :
    (goSections lines = [] →
      ParseMultiple pd lines = .error (gs "no requests found in file")) ∧
    (goSections lines ≠ [] →
      (∀ s ∈ goSections lines, ∃ r, parseContent pd s 1 = .ok r) →
      ∃ rs, ParseMultiple pd lines = .ok rs ∧ rs.length = (goSections lines).length) ∧
    ((∃ s ∈ goSections lines, ∀ r, parseContent pd s 1 ≠ .ok r) →
      ∀ rs, ParseMultiple pd lines ≠ .ok rs) := by
  refine ⟨?_, ?_, ?_⟩
  · intro h
    simp only [ParseMultiple]
    rw [if_pos h]
  · intro hne hall
    obtain ⟨rs, hrs, hlen⟩ := parseSectionsFrom_len pd (goSections lines) 0 hall
    refine ⟨rs, ?_, hlen⟩
    simp only [ParseMultiple]
    rw [if_neg hne]
    exact hrs
  · intro hbad rs h
    obtain ⟨s0, hs0, hs0bad⟩ := hbad
    simp only [ParseMultiple] at h
    split at h
    · exact Except.noConfusion h
    · exact parseSectionsFrom_err pd (goSections lines) 0 s0 hs0 hs0bad rs h

/-- C2 (witness): a two-segment document, both segments valid, parses into
exactly two records. -/
theorem C2_witness :
    (goSections w2Lines).length = 2 ∧
    ∃ rs, ParseMultiple pd0 w2Lines = .ok rs ∧ rs.length = (goSections w2Lines).length := by
  refine ⟨rfl, ?_⟩
  apply (C2_segment_counting pd0 w2Lines).2.1
  · decide
  · intro s hs
    have he : goSections w2Lines =
        [[gs "GRPC a", gs "Service: s", gs "Method: m"],
         [gs "GRPC b", gs "Service: t", gs "Method: n"]] := rfl
    rw [he] at hs
    simp only [List.mem_cons, List.not_mem_nil, or_false] at hs
    rcases hs with hs | hs
    · subst hs
      exact ⟨_, rfl⟩
    · subst hs
      exact ⟨_, rfl⟩

/-! ## Run-loop lemmas -/

/-- A record that reaches its assertions made exactly one transport call. -/
lemma execRecord_ok_one {env : Env} {vars : List (GoStr × GoStr)} {i : Nat}
    {r : RequestFile} {c : Nat} {vp : List (GoStr × GoStr) × Bool}
    (h : execRecord env vars i r = (c, .ok vp)) : c = 1 := by
  simp only [execRecord] at h
  repeat' split at h
  all_goals
    (injection h with h1 h2; first | exact Except.noConfusion h2 | exact h1.symm)

/-- A run that ends in the success state invoked the transport once per
record. -/
lemma runFrom_ok_len {env : Env} :
    ∀ (rs : List RequestFile) (vars : List (GoStr × GoStr)) (i c : Nat)
      (v : List (GoStr × GoStr)),
      runFrom env vars i rs = (c, .ok v) → c = rs.length := by
  intro rs
  induction rs with
  | nil =>
    intro vars i c v h
    injection h with h1 h2
    exact h1.symm
  | cons r rest ih =>
    intro vars i c v h
    simp only [runFrom] at h
    split at h
    · injection h with h1 h2
      exact Except.noConfusion h2
    · rename_i c0 vp heq
      split at h
      · injection h with h1 h2
        have hc0 : c0 = 1 := execRecord_ok_one heq
        cases hn : runFrom env vp.1 (i + 1) rest with
        | mk c1 res1 =>
          rw [hn] at h1 h2
          have hc1 : c1 = rest.length := ih vp.1 (i + 1) c1 v (by rw [hn]; rw [← h2])
          simp only [List.length_cons]
          omega
      · injection h with h1 h2
        exact Except.noConfusion h2

/-- Decomposing a run over an all-passing prefix: the run over
`pre ++ rest` makes `pre.length` calls for the prefix and then continues
as the run over `rest` from the prefix's final variable store. -/
lemma runFrom_append {env : Env} :
    ∀ (pre rest : List RequestFile) (vars : List (GoStr × GoStr)) (i : Nat)
      (vk : List (GoStr × GoStr)),
      runFrom env vars i pre = (pre.length, .ok vk) →
      runFrom env vars i (pre ++ rest) =
        (pre.length + (runFrom env vk (i + pre.length) rest).1,
         (runFrom env vk (i + pre.length) rest).2) := by
  intro pre
  induction pre with
  | nil =>
    intro rest vars i vk h
    injection h with h1 h2
    injection h2 with h3
    subst h3
    simp
  | cons r pre' ih =>
    intro rest vars i vk h
    simp only [runFrom, List.cons_append] at h ⊢
    split at h
    · injection h with h1 h2
      exact Except.noConfusion h2
    · rename_i c0 vp heq
      split at h
      · rename_i hvp
        rw [if_pos hvp]
        injection h with h1 h2
        have hc0 : c0 = 1 := execRecord_ok_one heq
        subst hc0
        cases hn : runFrom env vp.1 (i + 1) pre' with
        | mk c1 res1 =>
          rw [hn] at h1 h2
          have hres : res1 = .ok vk := h2
          have hc1 : c1 = pre'.length := by
            apply runFrom_ok_len pre' vp.1 (i + 1) c1 vk
            rw [hn, hres]
          have hpre : runFrom env vp.1 (i + 1) pre' = (pre'.length, .ok vk) := by
            rw [hn, hres, hc1]
          have hih := ih rest vp.1 (i + 1) vk hpre
          have hidx : i + 1 + pre'.length = i + (pre'.length + 1) := by omega
          rw [hidx] at hih
          simp only [List.append_eq]
          rw [hih]
          simp only [List.length_cons, Prod.mk.injEq]
          exact ⟨by omega, True.intro⟩
      · injection h with h1 h2
        exact Except.noConfusion h2

/-! ## Claim C4 — abort on assertion failure -/

/-- C4: in a run whose first `pre.length` records all pass, a next record
whose assertions are all evaluated but do not all pass aborts the whole
run — the transport was invoked exactly `pre.length + 1` times and the
result does not depend on the remaining records, which therefore never
execute; a next record whose assertions all pass hands over to the run of
the remaining records. -/
theorem C4_abort_on_assertion_failure (env : Env) (vars0 : List (GoStr × GoStr)) (i : Nat)
    (pre : List RequestFile) (c : Nat) (vk : List (GoStr × GoStr))
    (h : runFrom env vars0 i pre = (c, .ok vk)) :
    c = pre.length ∧
    (∀ r rs v1, execRecord env vk (i + pre.length) r = (1, .ok (v1, false)) →
      runFrom env vars0 i (pre ++ r :: rs) =
        (pre.length + 1, .error (gs "one or more assertions failed"))) ∧
    (∀ r rs v1, execRecord env vk (i + pre.length) r = (1, .ok (v1, true)) →
      runFrom env vars0 i (pre ++ r :: rs) =
        (pre.length + 1 + (runFrom env v1 (i + pre.length + 1) rs).1,
         (runFrom env v1 (i + pre.length + 1) rs).2)) := by
  have hc : c = pre.length := runFrom_ok_len pre vars0 i c vk h
  subst hc
  refine ⟨rfl, ?_, ?_⟩
  · intro r rs v1 hex
    rw [runFrom_append pre (r :: rs) vars0 i vk h]
    simp [runFrom, hex]
  · intro r rs v1 hex
    rw [runFrom_append pre (r :: rs) vars0 i vk h]
    simp only [runFrom, hex]
    simp only [if_pos True.intro, Prod.mk.injEq]
    exact ⟨by omega, True.intro⟩

/-- C4 (witness): with an empty all-passing prefix and a first record
whose single assertion fails against the mock environment, the run aborts
with exactly one transport call and the second record never executes. -/
theorem C4_witness :
    runFrom env0 [] 0 [rFail, rFail] = (1, .error (gs "one or more assertions failed")) :=
  (C4_abort_on_assertion_failure env0 [] 0 [] 0 [] rfl).2.1 rFail [rFail] [] rfl

end GrpcCli
